import Mathlib

/-!
Shallow embedding of `scripts/fetch_data.py` (polymarket_explorer).

The script is a linear fetch-transform-persist pipeline: it resolves a
prediction-market event by slug from a metadata service, fetches a price
history per market from a time-series service, and writes three kinds of
JSON artifacts (`event.json`, `history_<id>.json`, `summary.json`).

Parsed JSON documents are modelled by the inductive `Json`; Python dynamic
operations (`len`, `in`, subscript, `.get`, truthiness, iteration) are
modelled by total Lean functions returning `Except RunError _` where the
Python operation can raise.  The network, the system clock and Python's
`json.loads` are inputs of the pipeline, collected in `Env`; the pipeline's
observable behaviour (stdout lines, file writes, history queries, and a
possible uncaught exception) is collected in `RunResult`.
-/

set_option autoImplicit false

namespace Fetch

/-- A parsed JSON document, as returned by `response.json()` / `json.loads`.
Numbers are modelled as integers (the script never does arithmetic on
response numbers; it only copies them). -/
inductive Json where
  | null
  | bool (b : Bool)
  | num (n : Int)
  | str (s : String)
  | arr (xs : List Json)
  | obj (fields : List (String × Json))
deriving Repr

mutual

def Json.beq : Json → Json → Bool
  | .null, .null => true
  | .bool a, .bool b => a == b
  | .num a, .num b => a == b
  | .str a, .str b => a == b
  | .arr a, .arr b => Json.beqList a b
  | .obj a, .obj b => Json.beqFields a b
  | _, _ => false

def Json.beqList : List Json → List Json → Bool
  | [], [] => true
  | a :: as, b :: bs => Json.beq a b && Json.beqList as bs
  | _, _ => false

def Json.beqFields : List (String × Json) → List (String × Json) → Bool
  | [], [] => true
  | (k, v) :: as, (l, w) :: bs => k == l && Json.beq v w && Json.beqFields as bs
  | _, _ => false

end

instance : BEq Json := ⟨Json.beq⟩

/-- Python truthiness (`bool(x)`) on a JSON value: `None`, `False`, `0`,
`""`, `[]` and `{}` are falsy, everything else is truthy. -/
def Json.truthy : Json → Bool
  | .null => false
  | .bool b => b
  | .num n => n != 0
  | .str s => !s.isEmpty
  | .arr xs => !xs.isEmpty
  | .obj fs => !fs.isEmpty

/-- Truthiness of an optional JSON value; `none` models Python's `None`. -/
def pyTruthyOpt : Option Json → Bool
  | none => false
  | some j => j.truthy

/-- The uncaught exceptions the script can raise. -/
inductive RunError where
  | keyError (k : String)
  | attributeError
  | typeError
  | indexError
deriving Repr, DecidableEq

/-- `x.get(k, d)`: defaulted dictionary lookup; raises `AttributeError`
when the receiver is not a dict. -/
def pyGetAttrDefault (j : Json) (k : String) (d : Json) : Except RunError Json :=
  match j with
  | .obj fs => .ok ((fs.lookup k).getD d)
  | _ => .error .attributeError

/-- `x[k]` for a string key: dictionary lookup raising `KeyError` when the
key is missing, `TypeError` when the receiver is a list, string, etc. -/
def pyGetItem (j : Json) (k : String) : Except RunError Json :=
  match j with
  | .obj fs =>
    match fs.lookup k with
    | some v => .ok v
    | none => .error (.keyError k)
  | _ => .error .typeError

/-- `len(x)`: defined on lists, dicts and strings, `TypeError` otherwise. -/
def pyLen (j : Json) : Except RunError Nat :=
  match j with
  | .arr xs => .ok xs.length
  | .obj fs => .ok fs.length
  | .str s => .ok s.length
  | _ => .error .typeError

/-- Iterating a JSON value (`for m in x`): lists yield their elements,
strings their characters, dicts their keys; anything else raises. -/
def pyIter (j : Json) : Except RunError (List Json) :=
  match j with
  | .arr xs => .ok xs
  | .str s => .ok (s.toList.map fun c => .str (String.singleton c))
  | .obj fs => .ok (fs.map fun p => .str p.1)
  | _ => .error .typeError

/-- Whether the list starts with the given pattern. -/
def startsWithL : List Char → List Char → Bool
  | [], _ => true
  | _ :: _, [] => false
  | a :: as, b :: bs => a == b && startsWithL as bs

/-- Substring test on character lists. -/
def containsSub (needle : List Char) : List Char → Bool
  | [] => needle.isEmpty
  | c :: cs => startsWithL needle (c :: cs) || containsSub needle cs

/-- `k in x`: key membership for dicts, element membership for lists,
substring test for strings, `TypeError` otherwise. -/
def pyContains (j : Json) (k : String) : Except RunError Bool :=
  match j with
  | .obj fs => .ok (fs.lookup k).isSome
  | .arr xs => .ok (xs.any fun x => Json.beq x (.str k))
  | .str s => .ok (containsSub k.toList s.toList)
  | _ => .error .typeError

/-- `x[0]`: first element of a list (or first character of a string);
`IndexError` when empty, `KeyError`/`TypeError` on other receivers. -/
def pyIndex0 (j : Json) : Except RunError Json :=
  match j with
  | .arr (x :: _) => .ok x
  | .arr [] => .error .indexError
  | .str s => if s.isEmpty then .error .indexError else .ok (.str (s.take 1))
  | .obj _ => .error (.keyError "0")
  | _ => .error .typeError

/-- One line printed to stdout (constructors mirror the script's
`print` calls; formatted arguments are kept structured). -/
inductive Msg where
  | fetchingEvent (slug : String)
  | errorFetchingEvent (status : Nat)
  | exceptionFetchingEvent (e : String)
  | errorFetchingHistory (market : Json) (status : Nat)
  | exceptionFetchingHistory (e : String)
  | noEventsFound
  | emptyEventList
  | foundMarkets (n : Nat)
  | processing (question : Json)
  | noClobTokenIds
  | fetchedPoints (n : Nat)
  | noHistory
deriving Repr

/-- Discriminator for the `"Empty event list."` line. -/
def isEmptyListMsg : Msg → Bool
  | .emptyEventList => true
  | _ => false

/-- The three artifact kinds written under `public/data/`; the history
artifact's filename is derived from the market's `id` value. -/
inductive Artifact where
  | eventJson
  | historyJson (marketId : Json)
  | summaryJson
deriving Repr

def Artifact.isEvent : Artifact → Bool
  | .eventJson => true
  | _ => false

def Artifact.isHistory : Artifact → Bool
  | .historyJson _ => true
  | _ => false

def Artifact.isSummary : Artifact → Bool
  | .summaryJson => true
  | _ => false

/-- One `json.dump` call: target file, dumped document, and whether
`indent=2` was passed (pretty-printing). -/
structure FileWrite where
  path : Artifact
  data : Json
  pretty : Bool
deriving Repr

/-- Outcome of one `requests.get`: a transport exception, or a status code
together with the parsed JSON body. -/
def HttpResult : Type := Except String (Nat × Json)

/-- The ambient world the script runs in: the metadata service keyed by
slug, the time-series service keyed by (token, startTs), Python's
`json.loads` (success or parse failure), and the readings of
`int(time.time())` in call order. -/
structure Env where
  eventHttp : String → HttpResult
  histHttp : Json → Int → HttpResult
  json_loads : String → Option Json
  clock : Nat → Int

/-- Everything observable about one run: stdout lines, file writes and
history queries in order, and the uncaught exception if one was raised. -/
structure RunResult where
  prints : List Msg
  writes : List FileWrite
  queries : List (Json × Int)
  error : Option RunError

/-- `get_event_data(slug)`: returns the parsed body on a 200 response and
`None` otherwise; a transport exception is swallowed.  The second
component is the lines it prints. -/
def get_event_data (env : Env) (slug : String) : Option Json × List Msg :=
  match env.eventHttp slug with
  | .error e => (none, [.exceptionFetchingEvent e])
  | .ok (status, body) =>
    if status == 200 then (some body, [])
    else (none, [.errorFetchingEvent status])

/-- `get_price_history(market_id, start_ts)`: same shape as
`get_event_data`, against the time-series service. -/
def get_price_history (env : Env) (market_id : Json) (start_ts : Int) :
    Option Json × List Msg :=
  match env.histHttp market_id start_ts with
  | .error e => (none, [.exceptionFetchingHistory e])
  | .ok (status, body) =>
    if status == 200 then (some body, [])
    else (none, [.errorFetchingHistory market_id status])

/-- Lines 76-80: the `isinstance(clob_token_ids, str)` branch — a string
is decoded with `json.loads`, a parse failure degrading to `[]`; any
other value passes through. -/
def normalizeTokens (env : Env) (raw : Json) : Json :=
  match raw with
  | .str s => (env.json_loads s).getD (.arr [])
  | v => v

/-- State threaded through the market loop: how many times
`int(time.time())` has been read, the accumulated `stats` list, and the
output traces so far. -/
structure LoopState where
  clockIdx : Nat
  stats : List Json
  prints : List Msg
  writes : List FileWrite
  queries : List (Json × Int)

/-- The body of `for market in markets:` (lines 71-113 of the script) for
one market.  Returns the updated state and the uncaught exception if the
iteration raised one. -/
def processMarket (env : Env) (st : LoopState) (market : Json) :
    LoopState × Option RunError :=
  match pyGetAttrDefault market "question" (.str "") with
  | .error e => (st, some e)
  | .ok question =>
    let st := { st with prints := st.prints ++ [.processing question] }
    match pyGetAttrDefault market "clobTokenIds" (.arr []) with
    | .error e => (st, some e)
    | .ok rawTokens =>
      let clob_token_ids := normalizeTokens env rawTokens
      if clob_token_ids.truthy = false then
        ({ st with prints := st.prints ++ [.noClobTokenIds] }, none)
      else
        match pyIndex0 clob_token_ids with
        | .error e => (st, some e)
        | .ok yes_token_id =>
          let start_ts : Int := env.clock st.clockIdx - 14 * 24 * 3600
          let st := { st with clockIdx := st.clockIdx + 1 }
          let (history, hp) := get_price_history env yes_token_id start_ts
          let st := { st with
            queries := st.queries ++ [(yes_token_id, start_ts)],
            prints := st.prints ++ hp }
          match history with
          | none => ({ st with prints := st.prints ++ [.noHistory] }, none)
          | some h =>
            if h.truthy = false then
              ({ st with prints := st.prints ++ [.noHistory] }, none)
            else
              match pyContains h "history" with
              | .error e => (st, some e)
              | .ok false => ({ st with prints := st.prints ++ [.noHistory] }, none)
              | .ok true =>
                match pyGetItem h "history" with
                | .error e => (st, some e)
                | .ok points =>
                  match pyLen points with
                  | .error e => (st, some e)
                  | .ok n =>
                    let st := { st with prints := st.prints ++ [.fetchedPoints n] }
                    match pyGetItem market "id" with
                    | .error e => (st, some e)
                    | .ok marketId =>
                      let st := { st with
                        writes := st.writes ++ [⟨.historyJson marketId, h, false⟩] }
                      match pyGetAttrDefault market "volume" (.num 0) with
                      | .error e => (st, some e)
                      | .ok volume =>
                        let stat := Json.obj
                          [("id", marketId), ("question", question),
                           ("token_id", yes_token_id), ("points", .num n),
                           ("volume", volume)]
                        ({ st with stats := st.stats ++ [stat] }, none)

/-- The market loop: processes markets in order, stopping at the first
uncaught exception. -/
def runLoop (env : Env) : List Json → LoopState → LoopState × Option RunError
  | [], st => (st, none)
  | m :: ms, st =>
    match processMarket env st m with
    | (st', none) => runLoop env ms st'
    | (st', some e) => (st', some e)

/-- The run's fixed slug (line 34 of the script). -/
def slug : String := "portugal-presidential-election"

/-- Lines 51-117: everything after the event has been selected.  Writes
`event.json` (pretty), runs the market loop, then writes `summary.json`
(pretty) if no exception was raised. -/
def afterEvent (env : Env) (prints : List Msg) (event : Json) : RunResult :=
  match pyGetAttrDefault event "markets" (.arr []) with
  | .error e => { prints := prints, writes := [], queries := [], error := some e }
  | .ok markets_j =>
    match pyLen markets_j with
    | .error e => { prints := prints, writes := [], queries := [], error := some e }
    | .ok n =>
      let prints := prints ++ [.foundMarkets n]
      let writes : List FileWrite := [⟨.eventJson, event, true⟩]
      match pyIter markets_j with
      | .error e => { prints := prints, writes := writes, queries := [], error := some e }
      | .ok markets =>
        let st0 : LoopState :=
          { clockIdx := 0, stats := [], prints := prints, writes := writes, queries := [] }
        match runLoop env markets st0 with
        | (st, some e) =>
          { prints := st.prints, writes := st.writes, queries := st.queries, error := some e }
        | (st, none) =>
          { prints := st.prints,
            writes := st.writes ++ [⟨.summaryJson, .arr st.stats, true⟩],
            queries := st.queries,
            error := none }

/-- `main()`: resolve the event, handle the empty / list / non-list
response shapes, then hand off to `afterEvent`. -/
def main (env : Env) : RunResult :=
  let prints : List Msg := [.fetchingEvent slug]
  let (events, ep) := get_event_data env slug
  let prints := prints ++ ep
  if pyTruthyOpt events = false then
    { prints := prints ++ [.noEventsFound], writes := [], queries := [], error := none }
  else
    match events with
    | none =>
      { prints := prints ++ [.noEventsFound], writes := [], queries := [], error := none }
    | some j =>
      match j with
      | .arr [] =>
        { prints := prints ++ [.emptyEventList], writes := [], queries := [], error := none }
      | .arr (e :: _) => afterEvent env prints e
      | _ => afterEvent env prints j

/-! ## Model-level descriptions of the loop's behaviour

The following definitions restate, per market, what the loop does; the
master lemma `runLoop_spec` proves that `runLoop` realises them on
well-formed markets. -/

/-- Lines 75-80: the normalized token list of a market given as a field
list — the `clobTokenIds` field (default `[]`), decoded by `json.loads`
when it is a string, with a parse failure degrading to `[]`. -/
def normTokens (env : Env) (fs : List (String × Json)) : Json :=
  normalizeTokens env ((fs.lookup "clobTokenIds").getD (.arr []))

/-- Whether a market reaches the history fetch: it is a dict and its
normalized token list is truthy (non-empty). -/
def hasTok (env : Env) (m : Json) : Bool :=
  match m with
  | .obj fs => (normTokens env fs).truthy
  | _ => false

/-- The affirmative-outcome token: the first entry of the normalized
token list. -/
def yesTokOf (env : Env) (fs : List (String × Json)) : Json :=
  match normTokens env fs with
  | .arr (t :: _) => t
  | _ => .null

/-- The time-series service's body for this market's yes-token (read at a
canonical startTs; well-formedness makes the body startTs-independent). -/
def histBody (env : Env) (fs : List (String × Json)) : Json :=
  match env.histHttp (yesTokOf env fs) 0 with
  | .ok (_, b) => b
  | .error _ => .null

/-- The market's `history` array inside the service's body. -/
def histPts (env : Env) (fs : List (String × Json)) : List Json :=
  match histBody env fs with
  | .obj hfs =>
    match hfs.lookup "history" with
    | some (.arr pts) => pts
    | _ => []
  | _ => []

/-- The MarketStat record appended to `stats` for one market (lines
105-111). -/
def statOf (env : Env) (fs : List (String × Json)) : Json :=
  .obj [("id", (fs.lookup "id").getD .null),
        ("question", (fs.lookup "question").getD (.str "")),
        ("token_id", yesTokOf env fs),
        ("points", .num (histPts env fs).length),
        ("volume", (fs.lookup "volume").getD (.num 0))]

/-- `statOf` lifted to a market value. -/
def statOfM (env : Env) (m : Json) : Json :=
  match m with
  | .obj fs => statOf env fs
  | _ => .null

/-- `yesTokOf` lifted to a market value. -/
def yesTokOfM (env : Env) (m : Json) : Json :=
  match m with
  | .obj fs => yesTokOf env fs
  | _ => .null

/-- The market's `id` field (present on well-formed markets). -/
def idOfM (m : Json) : Json :=
  match m with
  | .obj fs => (fs.lookup "id").getD .null
  | _ => .null

/-- The market's `question` field with the script's default. -/
def qOfM (m : Json) : Json :=
  match m with
  | .obj fs => (fs.lookup "question").getD (.str "")
  | _ => .null

/-- `histBody` lifted to a market value. -/
def histBodyM (env : Env) (m : Json) : Json :=
  match m with
  | .obj fs => histBody env fs
  | _ => .null

/-- `histPts` lifted to a market value. -/
def histPtsM (env : Env) (m : Json) : List Json :=
  match m with
  | .obj fs => histPts env fs
  | _ => []

/-- Number of markets that reach the history fetch (= number of
`time.time()` readings). -/
def cntTok (env : Env) : List Json → Nat
  | [] => 0
  | m :: ms => (if hasTok env m then 1 else 0) + cntTok env ms

/-- The stats the loop accumulates, in market order. -/
def statsFor (env : Env) : List Json → List Json
  | [] => []
  | m :: ms => (if hasTok env m then [statOfM env m] else []) ++ statsFor env ms

/-- The history-file writes the loop performs, in market order. -/
def writesFor (env : Env) : List Json → List FileWrite
  | [] => []
  | m :: ms =>
    (if hasTok env m then [⟨.historyJson (idOfM m), histBodyM env m, false⟩] else [])
      ++ writesFor env ms

/-- The history queries the loop issues, starting from clock reading `i`. -/
def queriesFor (env : Env) (i : Nat) : List Json → List (Json × Int)
  | [] => []
  | m :: ms =>
    if hasTok env m then
      (yesTokOfM env m, env.clock i - 14 * 24 * 3600) :: queriesFor env (i + 1) ms
    else queriesFor env i ms

/-- The lines the loop prints, in market order. -/
def printsFor (env : Env) : List Json → List Msg
  | [] => []
  | m :: ms =>
    (if hasTok env m then [.processing (qOfM m), .fetchedPoints (histPtsM env m).length]
     else [.processing (qOfM m), .noClobTokenIds])
      ++ printsFor env ms

/-- A market the pipeline handles without raising: it is a dict, and if
its normalized token list is truthy then it is an actual list, the market
has an `id`, and the time-series service answers its yes-token with a 200
whose body is a dict holding a `history` array (the same body at every
startTs). -/
def WFmarket (env : Env) (m : Json) : Prop :=
  ∃ fs, m = .obj fs ∧
    ((normTokens env fs).truthy = true →
      (∃ idv, fs.lookup "id" = some idv) ∧
      (∃ toks, normTokens env fs = .arr toks) ∧
      ∃ hfs pts,
        (∀ ts, env.histHttp (yesTokOf env fs) ts = .ok (200, .obj hfs)) ∧
        hfs.lookup "history" = some (.arr pts))

/-- The state advance of one skipped market (empty token list). -/
def stepSkip (st : LoopState) (m : Json) : LoopState :=
  { st with prints := st.prints ++ [.processing (qOfM m), .noClobTokenIds] }

/-- The state advance of one successfully processed market. -/
def stepTake (env : Env) (st : LoopState) (m : Json) : LoopState :=
  { clockIdx := st.clockIdx + 1,
    stats := st.stats ++ [statOfM env m],
    prints := st.prints ++ [.processing (qOfM m), .fetchedPoints (histPtsM env m).length],
    writes := st.writes ++ [⟨.historyJson (idOfM m), histBodyM env m, false⟩],
    queries := st.queries ++ [(yesTokOfM env m, env.clock st.clockIdx - 14 * 24 * 3600)] }

/-- Lines 43-49: the response-shape handling — an array response yields
its first element, a non-array response is the event itself. -/
def selectEvent : Json → Json
  | .arr (x :: _) => x
  | j => j

/-- The document written to `summary.json`, when that file was written. -/
def summaryOut (r : RunResult) : Option Json :=
  ((r.writes.filter fun w => w.path.isSummary).map (fun w => w.data)).head?

/-- The encoding discipline of one write: `event.json` and `summary.json`
pretty-printed, history files compact. -/
def prettyOK (w : FileWrite) : Bool :=
  match w.path with
  | .eventJson => w.pretty
  | .summaryJson => w.pretty
  | .historyJson _ => !w.pretty

/-! ## Concrete worlds used to evaluate the pipeline -/

/-- A deterministic time-series service: token `"t1"` has a two-point
history, every other token a one-point history; the body does not depend
on the requested startTs. -/
def histServe : Json → Int → HttpResult := fun t _ =>
  .ok (200, Json.obj
    [("history", Json.arr
      (if Json.beq t (.str "t1") then [Json.num 1, Json.num 2] else [Json.num 3]))])

/-- A small `json.loads`: parses the literal `"[]"` and fails on
everything else. -/
def loadsFn : String → Option Json := fun s =>
  if s = "[]" then some (.arr []) else none

/-- A clock that advances by one second per reading. -/
def clockFn : Nat → Int := fun i => 1209600 + i

/-- A world whose metadata service answers every slug with the given
body. -/
def mkEnv (body : Json) : Env :=
  { eventHttp := fun _ => .ok (200, body),
    histHttp := histServe,
    json_loads := loadsFn,
    clock := clockFn }

def market1 : Json :=
  .obj [("id", .str "m1"), ("question", .str "Will A win?"),
        ("clobTokenIds", .arr [.str "t1", .str "t2"]), ("volume", .num 200)]

def market2 : Json :=
  .obj [("id", .str "m2"), ("question", .str "Will B win?"),
        ("clobTokenIds", .arr [.str "t3", .str "t4"]), ("volume", .num 500)]

def market3 : Json :=
  .obj [("id", .str "m3"), ("question", .str "Will C win?"),
        ("clobTokenIds", .arr [.str "t5", .str "t6"]), ("volume", .num 100)]

/-- A market whose token list is the JSON-encoded string `"[]"`. -/
def marketSkipFields : List (String × Json) :=
  [("id", .str "mX"), ("question", .str "Broken?"), ("clobTokenIds", .str "[]"),
   ("volume", .num 999)]

def marketSkip : Json := .obj marketSkipFields

/-- A market with a token and a fetchable history but no `id`. -/
def marketNoId : Json :=
  .obj [("question", .str "No id?"), ("clobTokenIds", .arr [.str "t9"])]

def eventTwoFields : List (String × Json) :=
  [("markets", Json.arr [market1, market2])]

def eventTwo : Json := .obj eventTwoFields

def envTwo : Env := mkEnv eventTwo

def eventThreeFields : List (String × Json) :=
  [("markets", Json.arr [market1, market2, market3])]

def eventThree : Json := .obj eventThreeFields

def envThree : Env := mkEnv eventThree

def eventSkipFields : List (String × Json) :=
  [("markets", Json.arr [market1, marketSkip, market2])]

def eventSkip : Json := .obj eventSkipFields

def envSkip : Env := mkEnv eventSkip

def eventNoId : Json := .obj [("markets", Json.arr [marketNoId])]

def envNoId : Env := mkEnv eventNoId

def eventZeroFields : List (String × Json) := [("markets", Json.arr [])]

def eventZero : Json := .obj eventZeroFields

def envZero : Env := mkEnv eventZero

/-- A world whose metadata service answers with the empty array. -/
def envEmpty : Env := mkEnv (Json.arr [])

/-- Like `envTwo` but the time-series service answers 404 on every
query. -/
def envHist404 : Env :=
  { mkEnv eventTwo with histHttp := fun _ _ => .ok (404, Json.null) }

/-! ## Master lemmas -/

theorem truthy_arr_ne_nil {xs : List Json} (h : (Json.arr xs).truthy = true) :
    xs ≠ [] := by
  intro hnil
  subst hnil
  simp [Json.truthy] at h

theorem truthy_obj_of_lookup {hfs : List (String × Json)} {k : String} {v : Json}
    (h : hfs.lookup k = some v) : (Json.obj hfs).truthy = true := by
  cases hfs with
  | nil => simp [List.lookup] at h
  | cons p rest => simp [Json.truthy]

/-- On a well-formed market, one loop iteration performs exactly the
`stepTake` advance (token list non-empty) or the `stepSkip` advance. -/
theorem processMarket_wf (env : Env) (st : LoopState) (m : Json)
    (h : WFmarket env m) :
    processMarket env st m =
      (if hasTok env m then stepTake env st m else stepSkip st m, none) := by
  obtain ⟨fs, rfl, hw⟩ := h
  by_cases ht : (normTokens env fs).truthy = true
  · obtain ⟨⟨idv, hid⟩, ⟨toks, htoks⟩, hfs, pts, hhttp, hlook⟩ := hw ht
    obtain ⟨t, rest, rfl⟩ :=
      List.exists_cons_of_ne_nil (truthy_arr_ne_nil (htoks ▸ ht))
    have hyes : yesTokOf env fs = t := by
      simp [yesTokOf, htoks]
    have hbody : histBody env fs = Json.obj hfs := by
      have h0 := hhttp 0
      simp [histBody, h0]
    have hpts : histPts env fs = pts := by
      simp [histPts, hbody, hlook]
    have htok : hasTok env (Json.obj fs) = true := by
      simp [hasTok, ht]
    rw [htok]
    simp only [processMarket, pyGetAttrDefault]
    have hnt : normalizeTokens env ((fs.lookup "clobTokenIds").getD (Json.arr [])) =
        Json.arr (t :: rest) := htoks
    rw [hnt]
    have hht : ∀ ts, env.histHttp t ts = Except.ok (200, Json.obj hfs) := by
      rw [← hyes]; exact hhttp
    have htr : (Json.obj hfs).truthy = true := truthy_obj_of_lookup hlook
    have hne : hfs ≠ [] := by
      intro h0; subst h0; simp [List.lookup] at hlook
    simp only [Json.truthy, List.isEmpty_cons, Bool.not_false, pyIndex0,
      get_price_history, pyContains, pyGetItem, pyLen, hht, htr, hlook, hid,
      stepTake, statOfM, statOf, qOfM, idOfM, histBodyM, hbody, histPtsM, hpts,
      yesTokOfM, hyes]
    simp [Json.truthy, htr, hlook, hid, hne, stepTake, statOfM, statOf, qOfM, idOfM,
      histBodyM, hbody, histPtsM, hpts, yesTokOfM, hyes]
  · have ht' : (normTokens env fs).truthy = false := by
      simpa using ht
    have htok : hasTok env (Json.obj fs) = false := by
      simp [hasTok, ht']
    rw [htok]
    simp only [processMarket, pyGetAttrDefault]
    have hnt : normalizeTokens env ((fs.lookup "clobTokenIds").getD (Json.arr [])) =
        normTokens env fs := rfl
    rw [hnt, ht']
    simp [stepSkip, qOfM]

/-- Master lemma: on well-formed markets the loop never raises, and its
stats, prints, writes and queries are the per-market descriptions
accumulated in order. -/
theorem runLoop_spec (env : Env) :
    ∀ (ms : List Json) (st : LoopState), (∀ m ∈ ms, WFmarket env m) →
    runLoop env ms st =
      ({ clockIdx := st.clockIdx + cntTok env ms,
         stats := st.stats ++ statsFor env ms,
         prints := st.prints ++ printsFor env ms,
         writes := st.writes ++ writesFor env ms,
         queries := st.queries ++ queriesFor env st.clockIdx ms }, none)
  | [], st, _ => by
    simp [runLoop, cntTok, statsFor, printsFor, writesFor, queriesFor]
  | m :: ms, st, h => by
    rw [runLoop, processMarket_wf env st m (h m (by simp))]
    by_cases htok : hasTok env m
    · rw [if_pos htok]
      show runLoop env ms (stepTake env st m) = _
      rw [runLoop_spec env ms (stepTake env st m) (fun m' hm' => h m' (by simp [hm']))]
      simp [stepTake, cntTok, statsFor, printsFor, writesFor, queriesFor, htok,
        Nat.add_assoc, List.append_assoc]
    · rw [if_neg htok]
      show runLoop env ms (stepSkip st m) = _
      rw [runLoop_spec env ms (stepSkip st m) (fun m' hm' => h m' (by simp [hm']))]
      have htok' : hasTok env m = false := by simpa using htok
      simp [stepSkip, cntTok, statsFor, printsFor, writesFor, queriesFor, htok',
        Nat.add_assoc, List.append_assoc]

/-- Main-level master lemma: with a 200 event response whose selected
event is a dict and whose markets are all well-formed, the run writes
`event.json`, the history files, and `summary.json`, in that order, and
terminates without an uncaught exception. -/
theorem main_spec (env : Env) (ev : Json) (efs : List (String × Json)) (ms : List Json)
    (hev : env.eventHttp slug = .ok (200, ev))
    (htruthy : ev.truthy = true)
    (hobj : selectEvent ev = .obj efs)
    (hmk : (efs.lookup "markets").getD (.arr []) = .arr ms)
    (hwf : ∀ m ∈ ms, WFmarket env m) :
    main env =
      { prints := [.fetchingEvent slug, .foundMarkets ms.length] ++ printsFor env ms,
        writes := ⟨.eventJson, .obj efs, true⟩ ::
          (writesFor env ms ++ [⟨.summaryJson, .arr (statsFor env ms), true⟩]),
        queries := queriesFor env 0 ms,
        error := none } := by
  have hafter : ∀ pr : List Msg, afterEvent env pr (Json.obj efs) =
      { prints := (pr ++ [.foundMarkets ms.length]) ++ printsFor env ms,
        writes := ⟨.eventJson, .obj efs, true⟩ ::
          (writesFor env ms ++ [⟨.summaryJson, .arr (statsFor env ms), true⟩]),
        queries := queriesFor env 0 ms,
        error := none } := by
    intro pr
    simp only [afterEvent, pyGetAttrDefault]
    rw [hmk]
    simp only [pyLen, pyIter]
    rw [runLoop_spec env ms _ hwf]
    simp [List.append_assoc]
  cases ev with
  | arr xs =>
    cases xs with
    | nil => simp [Json.truthy] at htruthy
    | cons e rest =>
      have he : e = Json.obj efs := hobj
      subst he
      simp only [main, get_event_data]
      rw [hev]
      simp only [beq_self_eq_true, if_true, pyTruthyOpt, htruthy]
      rw [hafter]
      simp
  | obj efs' =>
    have he : Json.obj efs' = Json.obj efs := hobj
    injection he with he'
    subst he'
    simp only [main, get_event_data]
    rw [hev]
    simp only [beq_self_eq_true, if_true, pyTruthyOpt, htruthy]
    rw [hafter]
    simp
  | null => simp [Json.truthy] at htruthy
  | bool b =>
    have he : Json.bool b = Json.obj efs := hobj
    simp at he
  | num n =>
    have he : Json.num n = Json.obj efs := hobj
    simp at he
  | str s =>
    have he : Json.str s = Json.obj efs := hobj
    simp at he

/-- The accumulated stats are the per-market stat records of exactly the
markets with a non-empty token list, in market order. -/
theorem statsFor_eq (env : Env) :
    ∀ ms : List Json, statsFor env ms = (ms.filter (hasTok env)).map (statOfM env)
  | [] => by simp [statsFor]
  | m :: ms => by
    by_cases htok : hasTok env m
    · simp [statsFor, List.filter_cons, htok, statsFor_eq env ms]
    · have htok' : hasTok env m = false := by simpa using htok
      simp [statsFor, List.filter_cons, htok', statsFor_eq env ms]

/-- The number of history fetches is the number of markets with a
non-empty token list. -/
theorem cntTok_eq (env : Env) :
    ∀ ms : List Json, cntTok env ms = (ms.filter (hasTok env)).length
  | [] => by simp [cntTok]
  | m :: ms => by
    by_cases htok : hasTok env m
    · simp [cntTok, List.filter_cons, htok, cntTok_eq env ms, Nat.add_comm]
    · have htok' : hasTok env m = false := by simpa using htok
      simp [cntTok, List.filter_cons, htok', cntTok_eq env ms]

/-- The startTs of the successive history queries are the successive
clock readings, each shifted by the fixed 14-day window. -/
theorem queriesFor_snd (env : Env) :
    ∀ (ms : List Json) (i : Nat),
      (queriesFor env i ms).map Prod.snd =
        (List.range (cntTok env ms)).map fun k => env.clock (i + k) - 14 * 24 * 3600
  | [], i => by simp [queriesFor, cntTok]
  | m :: ms, i => by
    by_cases htok : hasTok env m
    · simp only [queriesFor, htok, if_true, List.map_cons]
      rw [queriesFor_snd env ms (i + 1)]
      have hc : cntTok env (m :: ms) = cntTok env ms + 1 := by
        simp [cntTok, htok, Nat.add_comm]
      rw [hc, List.range_succ_eq_map, List.map_cons, List.map_map]
      congr 1
      apply List.map_congr_left
      intro a _
      simp only [Function.comp_apply]
      have hsh : i + 1 + a = i + a.succ := by omega
      rw [hsh]
    · have htok' : hasTok env m = false := by simpa using htok
      simp only [queriesFor, htok', Bool.false_eq_true, if_false, cntTok, Nat.zero_add]
      exact queriesFor_snd env ms i

/-- Every write the loop performs is a compact history file. -/
theorem writesFor_hist (env : Env) :
    ∀ (ms : List Json), ∀ w ∈ writesFor env ms,
      w.path.isHistory = true ∧ w.pretty = false
  | m :: ms => by
    intro w hw
    by_cases htok : hasTok env m
    · simp only [writesFor, htok, if_true] at hw
      rcases List.mem_append.mp hw with h1 | h2
      · simp only [List.mem_singleton] at h1
        subst h1
        exact ⟨rfl, rfl⟩
      · exact writesFor_hist env ms w h2
    · have htok' : hasTok env m = false := by simpa using htok
      simp only [writesFor, htok', Bool.false_eq_true, if_false, List.nil_append] at hw
      exact writesFor_hist env ms w hw
  | [] => by
    intro w hw
    simp [writesFor] at hw

/-- The loop writes no summary file. -/
theorem writesFor_no_summary (env : Env) (ms : List Json) :
    (writesFor env ms).filter (fun w => w.path.isSummary) = [] := by
  rw [List.filter_eq_nil_iff]
  intro w hw
  have h := (writesFor_hist env ms w hw).1
  cases hpath : w.path with
  | eventJson => rw [hpath] at h; simp [Artifact.isHistory] at h
  | historyJson mid => simp [hpath, Artifact.isSummary]
  | summaryJson => rw [hpath] at h; simp [Artifact.isHistory] at h

/-- The history fetcher never prints the `"Empty event list."` line. -/
theorem gph_prints (env : Env) (t : Json) (ts : Int) :
    ∀ p ∈ (get_price_history env t ts).2, isEmptyListMsg p = false := by
  unfold get_price_history
  repeat' split
  all_goals intro p hp
  all_goals simp at hp
  all_goals simp [hp, isEmptyListMsg]

/-- The event resolver never prints the `"Empty event list."` line. -/
theorem ged_prints (env : Env) (s : String) :
    ∀ p ∈ (get_event_data env s).2, isEmptyListMsg p = false := by
  unfold get_event_data
  repeat' split
  all_goals intro p hp
  all_goals simp at hp
  all_goals simp [hp, isEmptyListMsg]

/-- Whatever one loop iteration appends to the write trace is a compact
history file. -/
theorem processMarket_writes_suffix (env : Env) (st : LoopState) (m : Json) :
    ∃ l, ((processMarket env st m).1).writes = st.writes ++ l ∧
      ∀ w ∈ l, w.path.isHistory = true ∧ w.pretty = false := by
  simp only [processMarket]
  repeat' split
  all_goals
    first
      | (refine ⟨[], ?_, ?_⟩
         · simp
         · intro w hw
           simp at hw)
      | (refine ⟨_, rfl, ?_⟩
         intro w hw
         simp only [List.mem_singleton] at hw
         subst hw
         exact ⟨rfl, rfl⟩)

/-- One loop iteration never prints the `"Empty event list."` line. -/
theorem processMarket_prints_inv (env : Env) (st : LoopState) (m : Json)
    (h : ∀ p ∈ st.prints, isEmptyListMsg p = false) :
    ∀ p ∈ ((processMarket env st m).1).prints, isEmptyListMsg p = false := by
  simp only [processMarket]
  repeat' split
  all_goals intro p hp
  all_goals simp only [List.mem_append, List.mem_singleton] at hp
  all_goals repeat' rcases hp with hp | hp
  all_goals
    first
      | exact h p hp
      | exact gph_prints env _ _ p hp
      | rfl

/-- The loop never prints the `"Empty event list."` line. -/
theorem runLoop_prints_inv (env : Env) :
    ∀ (ms : List Json) (st : LoopState),
      (∀ p ∈ st.prints, isEmptyListMsg p = false) →
      ∀ p ∈ ((runLoop env ms st).1).prints, isEmptyListMsg p = false
  | [], st, h => by simpa [runLoop] using h
  | m :: ms, st, h => by
    have h' := processMarket_prints_inv env st m h
    rcases hpm : processMarket env st m with ⟨st', err⟩
    rw [hpm] at h'
    cases err with
    | none =>
      have he : runLoop env (m :: ms) st = runLoop env ms st' := by
        rw [runLoop, hpm]
      rw [he]
      exact runLoop_prints_inv env ms st' h'
    | some e =>
      have he : runLoop env (m :: ms) st = (st', some e) := by
        rw [runLoop, hpm]
      rw [he]
      exact h'

/-- Whatever the loop appends to the write trace is compact history
files. -/
theorem runLoop_writes_suffix (env : Env) :
    ∀ (ms : List Json) (st : LoopState),
      ∃ l, ((runLoop env ms st).1).writes = st.writes ++ l ∧
        ∀ w ∈ l, w.path.isHistory = true ∧ w.pretty = false
  | [], st => ⟨[], by simp [runLoop], by simp⟩
  | m :: ms, st => by
    obtain ⟨l1, h1, h1'⟩ := processMarket_writes_suffix env st m
    rcases hpm : processMarket env st m with ⟨st', err⟩
    rw [hpm] at h1
    cases err with
    | none =>
      obtain ⟨l2, h2, h2'⟩ := runLoop_writes_suffix env ms st'
      refine ⟨l1 ++ l2, ?_, ?_⟩
      · have he : runLoop env (m :: ms) st = runLoop env ms st' := by
          rw [runLoop, hpm]
        rw [he, h2, h1, List.append_assoc]
      · intro w hw
        rcases List.mem_append.mp hw with hw | hw
        · exact h1' w hw
        · exact h2' w hw
    | some e =>
      refine ⟨l1, ?_, h1'⟩
      have he : runLoop env (m :: ms) st = (st', some e) := by
        rw [runLoop, hpm]
      rw [he, h1]

/-- History-compact writes satisfy the encoding discipline. -/
theorem prettyOK_hist {w : FileWrite} (h1 : w.path.isHistory = true)
    (h2 : w.pretty = false) : prettyOK w = true := by
  rcases w with ⟨path, data, pretty⟩
  cases path with
  | eventJson => simp [Artifact.isHistory] at h1
  | historyJson mid => simp_all [prettyOK]
  | summaryJson => simp [Artifact.isHistory] at h1

/-- Every write `afterEvent` performs satisfies the encoding discipline:
`event.json` and `summary.json` pretty, history files compact. -/
theorem afterEvent_writes_prettyOK (env : Env) (pr : List Msg) (e : Json) :
    ((afterEvent env pr e).writes).all prettyOK = true := by
  unfold afterEvent
  cases hq : pyGetAttrDefault e "markets" (Json.arr []) with
  | error er => simp
  | ok mj =>
    cases hl : pyLen mj with
    | error er => simp only [hl]; simp
    | ok n =>
      cases hi : pyIter mj with
      | error er => simp only [hl, hi]; simp [prettyOK]
      | ok ms =>
        simp only [hl, hi]
        set st0 : LoopState :=
          { clockIdx := 0, stats := [], prints := pr ++ [Msg.foundMarkets n],
            writes := [⟨Artifact.eventJson, e, true⟩], queries := [] } with hst0
        obtain ⟨l, hw, hw'⟩ := runLoop_writes_suffix env ms st0
        rcases hrl : runLoop env ms st0 with ⟨st, err⟩
        rw [hrl] at hw
        have hall : st.writes.all prettyOK = true := by
          rw [hw]
          simp only [List.all_append, Bool.and_eq_true, List.all_eq_true]
        
          constructor
          · intro w hmem
            simp only [hst0, List.mem_singleton] at hmem
            subst hmem
            rfl
          · intro w hmem
            exact prettyOK_hist (hw' w hmem).1 (hw' w hmem).2
        cases err with
        | none =>
          simp only [List.all_append, Bool.and_eq_true, List.all_eq_true]
          refine ⟨?_, ?_⟩
          · simp only [List.all_eq_true] at hall
            exact hall
          · intro w hmem
            simp only [List.mem_singleton] at hmem
            subst hmem
            rfl
        | some er => exact hall

/-- `afterEvent` never prints the `"Empty event list."` line. -/
theorem afterEvent_prints_inv (env : Env) (pr : List Msg) (e : Json)
    (h : ∀ p ∈ pr, isEmptyListMsg p = false) :
    ∀ p ∈ (afterEvent env pr e).prints, isEmptyListMsg p = false := by
  unfold afterEvent
  cases hq : pyGetAttrDefault e "markets" (Json.arr []) with
  | error er => exact h
  | ok mj =>
    cases hl : pyLen mj with
    | error er => simp only [hl]; exact h
    | ok n =>
      have h2 : ∀ q ∈ pr ++ [Msg.foundMarkets n], isEmptyListMsg q = false := by
        intro q hq2
        rcases List.mem_append.mp hq2 with hq2 | hq2
        · exact h q hq2
        · simp only [List.mem_singleton] at hq2
          subst hq2
          rfl
      cases hi : pyIter mj with
      | error er => simp only [hl, hi]; exact h2
      | ok ms =>
        simp only [hl, hi]
        set st0 : LoopState :=
          { clockIdx := 0, stats := [], prints := pr ++ [Msg.foundMarkets n],
            writes := [⟨Artifact.eventJson, e, true⟩], queries := [] } with hst0
        have h3 := runLoop_prints_inv env ms st0 h2
        rcases hrl : runLoop env ms st0 with ⟨st, err⟩
        rw [hrl] at h3
        cases err with
        | none => exact h3
        | some er => exact h3

/-- Either `afterEvent` raised an uncaught exception, or its writes are
`event.json` first, then history files, then `summary.json` holding the
accumulated stats array. -/
theorem afterEvent_shape (env : Env) (pr : List Msg) (e : Json) :
    (afterEvent env pr e).error ≠ none ∨
    ∃ hw stats, (afterEvent env pr e).writes =
        ⟨Artifact.eventJson, e, true⟩ ::
          (hw ++ [⟨Artifact.summaryJson, Json.arr stats, true⟩]) ∧
      ∀ w ∈ hw, w.path.isHistory = true := by
  unfold afterEvent
  cases hq : pyGetAttrDefault e "markets" (Json.arr []) with
  | error er => left; simp
  | ok mj =>
    cases hl : pyLen mj with
    | error er => left; simp only [hl]; simp
    | ok n =>
      cases hi : pyIter mj with
      | error er => left; simp only [hl, hi]; simp
      | ok ms =>
        simp only [hl, hi]
        set st0 : LoopState :=
          { clockIdx := 0, stats := [], prints := pr ++ [Msg.foundMarkets n],
            writes := [⟨Artifact.eventJson, e, true⟩], queries := [] } with hst0
        obtain ⟨l, hw, hw'⟩ := runLoop_writes_suffix env ms st0
        rcases hrl : runLoop env ms st0 with ⟨st, err⟩
        rw [hrl] at hw
        cases err with
        | some er => left; simp
        | none =>
          right
          have hw2 : st.writes = st0.writes ++ l := hw
          refine ⟨l, st.stats, ?_, ?_⟩
          · simp [hw2, hst0]
          · intro w hmem
            exact (hw' w hmem).1

/-- When the event response is a 200 whose body is truthy, `main` resolves
the event and hands off to `afterEvent` on the selected event. -/
theorem main_truthy_eq (env : Env) (ev : Json)
    (hev : env.eventHttp slug = .ok (200, ev)) (ht : ev.truthy = true) :
    main env = afterEvent env [Msg.fetchingEvent slug] (selectEvent ev) := by
  cases ev with
  | null => simp [Json.truthy] at ht
  | arr xs =>
    cases xs with
    | nil => simp [Json.truthy] at ht
    | cons e rest =>
      simp only [main, get_event_data]
      rw [hev]
      simp only [beq_self_eq_true, if_true, pyTruthyOpt, ht]
      rfl
  | bool b =>
    simp only [main, get_event_data]
    rw [hev]
    simp only [beq_self_eq_true, if_true, pyTruthyOpt, ht]
    rfl
  | num n =>
    simp only [main, get_event_data]
    rw [hev]
    simp only [beq_self_eq_true, if_true, pyTruthyOpt, ht]
    rfl
  | str s =>
    simp only [main, get_event_data]
    rw [hev]
    simp only [beq_self_eq_true, if_true, pyTruthyOpt, ht]
    rfl
  | obj fs =>
    simp only [main, get_event_data]
    rw [hev]
    simp only [beq_self_eq_true, if_true, pyTruthyOpt, ht]
    rfl

/-- C3 support: every write of any run satisfies the encoding
discipline. -/
theorem main_writes_prettyOK (env : Env) :
    ((main env).writes).all prettyOK = true := by
  unfold main
  rcases hg : get_event_data env slug with ⟨events, ep⟩
  dsimp only
  by_cases ht : pyTruthyOpt events = false
  · rw [if_pos ht]
    rfl
  · rw [if_neg ht]
    cases events with
    | none => rfl
    | some j =>
      cases j with
      | arr xs =>
        cases xs with
        | nil => rfl
        | cons e rest => exact afterEvent_writes_prettyOK env _ e
      | null => exact afterEvent_writes_prettyOK env _ _
      | bool b => exact afterEvent_writes_prettyOK env _ _
      | num n => exact afterEvent_writes_prettyOK env _ _
      | str s => exact afterEvent_writes_prettyOK env _ _
      | obj fs => exact afterEvent_writes_prettyOK env _ _

/-- C10 support: no run ever prints the `"Empty event list."` line. -/
theorem main_prints_no_empty (env : Env) :
    ∀ p ∈ (main env).prints, isEmptyListMsg p = false := by
  have hged := ged_prints env slug
  unfold main
  rcases hg : get_event_data env slug with ⟨events, ep⟩
  dsimp only
  rw [hg] at hged
  have hbase : ∀ q ∈ [Msg.fetchingEvent slug] ++ ep, isEmptyListMsg q = false := by
    intro q hq
    rcases List.mem_append.mp hq with hq | hq
    · simp only [List.mem_singleton] at hq
      subst hq
      rfl
    · exact hged q hq
  have hbase2 : ∀ q ∈ [Msg.fetchingEvent slug] ++ ep ++ [Msg.noEventsFound],
      isEmptyListMsg q = false := by
    intro q hq
    rcases List.mem_append.mp hq with hq | hq
    · exact hbase q hq
    · simp only [List.mem_singleton] at hq
      subst hq
      rfl
  by_cases ht : pyTruthyOpt events = false
  · rw [if_pos ht]
    exact hbase2
  · rw [if_neg ht]
    cases events with
    | none => exact absurd rfl ht
    | some j =>
      cases j with
      | arr xs =>
        cases xs with
        | nil => exact absurd rfl ht
        | cons e rest => exact afterEvent_prints_inv env _ e hbase
      | null => exact absurd rfl ht
      | bool b => exact afterEvent_prints_inv env _ _ hbase
      | num n => exact afterEvent_prints_inv env _ _ hbase
      | str s => exact afterEvent_prints_inv env _ _ hbase
      | obj fs => exact afterEvent_prints_inv env _ _ hbase

/-! ## Claim theorems, counterexamples and witnesses -/

/-- A market with an empty token list contributes nothing to the stats,
wherever it sits in the list. -/
theorem statsFor_skip (env : Env) (mbad : Json) (h : hasTok env mbad = false) :
    ∀ ms1 ms2 : List Json,
      statsFor env (ms1 ++ mbad :: ms2) = statsFor env (ms1 ++ ms2)
  | [], ms2 => by simp [statsFor, h]
  | m :: ms1, ms2 => by
    simp only [List.cons_append, statsFor]
    exact congrArg (fun l => (if hasTok env m = true then [statOfM env m] else []) ++ l)
      (statsFor_skip env mbad h ms1 ms2)

/-- A market with an empty token list contributes no history write. -/
theorem writesFor_skip (env : Env) (mbad : Json) (h : hasTok env mbad = false) :
    ∀ ms1 ms2 : List Json,
      writesFor env (ms1 ++ mbad :: ms2) = writesFor env (ms1 ++ ms2)
  | [], ms2 => by simp [writesFor, h]
  | m :: ms1, ms2 => by
    simp only [List.cons_append, writesFor]
    exact congrArg
      (fun l =>
        (if hasTok env m = true then
          [⟨Artifact.historyJson (idOfM m), histBodyM env m, false⟩] else []) ++ l)
      (writesFor_skip env mbad h ms1 ms2)

/-- A market with an empty token list triggers no history query and does
not advance the clock. -/
theorem queriesFor_skip (env : Env) (mbad : Json) (h : hasTok env mbad = false) :
    ∀ (ms1 : List Json) (i : Nat) (ms2 : List Json),
      queriesFor env i (ms1 ++ mbad :: ms2) = queriesFor env i (ms1 ++ ms2)
  | [], i, ms2 => by simp [queriesFor, h]
  | m :: ms1, i, ms2 => by
    by_cases htok : hasTok env m
    · simp only [List.cons_append, queriesFor, htok, if_true]
      exact congrArg
        (fun l => (yesTokOfM env m, env.clock i - 14 * 24 * 3600) :: l)
        (queriesFor_skip env mbad h ms1 (i + 1) ms2)
    · have htok' : hasTok env m = false := by simpa using htok
      simp only [List.cons_append, queriesFor, htok', Bool.false_eq_true, if_false]
      exact queriesFor_skip env mbad h ms1 i ms2

/-- Runs whose writes have the standard shape have `summary.json` holding
the stats array. -/
theorem summaryOut_shape (env : Env) (r : RunResult) (edata : Json)
    (ms : List Json) (stats : List Json)
    (h : r.writes = ⟨Artifact.eventJson, edata, true⟩ ::
      (writesFor env ms ++ [⟨Artifact.summaryJson, Json.arr stats, true⟩])) :
    summaryOut r = some (.arr stats) := by
  unfold summaryOut
  rw [h, List.filter_cons, List.filter_append, writesFor_no_summary env ms]
  rfl

/-- C1: with a well-formed event response and a history service answering
every token-bearing market, `summary.json` holds one entry per such
market, and each entry's `points` field is the length of that market's
`history` array. -/
theorem claim1_summary_counts (env : Env) (ev : Json) (efs : List (String × Json))
    (ms : List Json)
    (hev : env.eventHttp slug = .ok (200, ev))
    (htruthy : ev.truthy = true)
    (hobj : selectEvent ev = .obj efs)
    (hmk : (efs.lookup "markets").getD (.arr []) = .arr ms)
    (hwf : ∀ m ∈ ms, WFmarket env m)
    (_hne : ms.filter (hasTok env) ≠ []) :
    summaryOut (main env) = some (.arr ((ms.filter (hasTok env)).map (statOfM env))) ∧
    ((ms.filter (hasTok env)).map (statOfM env)).length = (ms.filter (hasTok env)).length ∧
    ∀ m ∈ ms.filter (hasTok env),
      pyGetItem (statOfM env m) "points" = .ok (.num (histPtsM env m).length) := by
  have hmain := main_spec env ev efs ms hev htruthy hobj hmk hwf
  refine ⟨?_, List.length_map _ _, ?_⟩
  · have hs := summaryOut_shape env (main env) (.obj efs) ms (statsFor env ms)
      (by rw [hmain])
    rw [hs, statsFor_eq env ms]
  · intro m hm
    have htok := List.of_mem_filter hm
    cases m with
    | obj fs => rfl
    | null => simp [hasTok] at htok
    | bool b => simp [hasTok] at htok
    | num n => simp [hasTok] at htok
    | str s => simp [hasTok] at htok
    | arr xs => simp [hasTok] at htok

/-- C2 (counterexample): one run of the pipeline queries its two markets
with two different startTs values (0 and 1), because `start_ts` is
recomputed from the clock inside the market loop. -/
theorem claim2_counterexample :
    (main envTwo).queries.map Prod.snd = [(0 : Int), 1] ∧ ((0 : Int) ≠ 1) :=
  ⟨rfl, by decide⟩

/-- C2 (amended): the start timestamp is recomputed for each
token-bearing market as the current clock reading minus 14 days, so the
k-th history query uses the k-th clock reading. -/
theorem claim2_amended (env : Env) (ev : Json) (efs : List (String × Json))
    (ms : List Json)
    (hev : env.eventHttp slug = .ok (200, ev))
    (htruthy : ev.truthy = true)
    (hobj : selectEvent ev = .obj efs)
    (hmk : (efs.lookup "markets").getD (.arr []) = .arr ms)
    (hwf : ∀ m ∈ ms, WFmarket env m) :
    (main env).queries.map Prod.snd =
      (List.range ((ms.filter (hasTok env)).length)).map
        (fun k => env.clock k - 14 * 24 * 3600) := by
  have hmain := main_spec env ev efs ms hev htruthy hobj hmk hwf
  rw [hmain]
  dsimp only
  rw [queriesFor_snd env ms 0, cntTok_eq env ms]
  simp

/-- C3 (counterexample): `event.json` is written pretty-printed
(`indent=2`), not compactly. -/
theorem claim3_counterexample :
    ((main envTwo).writes.filter (fun w => w.path.isEvent)).map (fun w => w.pretty) =
      [true] := rfl

/-- C3 (amended): in every run, `event.json` and `summary.json` are
written pretty-printed and every `history_<id>.json` compactly. -/
theorem claim3_encoding (env : Env) :
    ((main env).writes).all prettyOK = true :=
  main_writes_prettyOK env

/-- C4: an empty-array event response produces no writes and no uncaught
exception. -/
theorem claim4_empty_event (env : Env)
    (h : env.eventHttp slug = .ok (200, .arr [])) :
    (main env).writes = [] ∧ (main env).error = none := by
  have hm : main env =
      { prints := [Msg.fetchingEvent slug] ++ [] ++ [Msg.noEventsFound],
        writes := [], queries := [], error := none } := by
    simp only [main, get_event_data]
    rw [h]
    rfl
  rw [hm]
  exact ⟨rfl, rfl⟩

theorem claim4_empty_event_witness :
    (main envEmpty).writes = [] ∧ (main envEmpty).error = none :=
  claim4_empty_event envEmpty rfl

/-- C7: the event resolver returns a parsed body exactly when the
response is a 200 with that body; transport exceptions and non-200
statuses yield `None` (the resolver is total, so nothing propagates). -/
theorem claim7_resolver_contract (env : Env) (s : String) (j : Json) :
    (get_event_data env s).1 = some j ↔ env.eventHttp s = .ok (200, j) := by
  cases hr : env.eventHttp s with
  | error e => simp [get_event_data, hr]
  | ok p =>
    obtain ⟨st, b⟩ := p
    by_cases h200 : st = 200
    · subst h200
      simp only [get_event_data, hr]
      simp only [beq_self_eq_true, if_true]
      constructor
      · intro h2
        simp only [Option.some.injEq] at h2
        rw [h2]
      · intro h2
        injection h2 with hp
        injection hp with h1 h3
        rw [h3]
    · have hb : (st == 200) = false := by simpa using h200
      simp only [get_event_data, hr, hb, Bool.false_eq_true, if_false]
      constructor
      · intro h2
        simp at h2
      · intro h2
        injection h2 with hp
        injection hp with h1 h3
        exact absurd h1 h200

/-- C10: no run, whatever the world, ever prints the
`"Empty event list."` line: the branch is dead because any falsy resolver
result is caught by the preceding `if not events` check. -/
theorem claim10_empty_list_unreachable (env : Env) :
    ((main env).prints).all (fun p => !(isEmptyListMsg p)) = true := by
  rw [List.all_eq_true]
  intro p hp
  simp [main_prints_no_empty env p hp]

/-- C5: a market whose `clobTokenIds` is the literal string `"[]"` or an
unparseable string is skipped — it contributes no history file, no query
and no summary entry — and the surrounding markets are processed exactly
as if it were absent. -/
theorem claim5_bad_tokens (env : Env) (ev : Json)
    (efs mbadfs : List (String × Json)) (s : String) (ms1 ms2 : List Json)
    (hev : env.eventHttp slug = .ok (200, ev))
    (htruthy : ev.truthy = true)
    (hobj : selectEvent ev = .obj efs)
    (hmk : (efs.lookup "markets").getD (.arr []) = .arr (ms1 ++ Json.obj mbadfs :: ms2))
    (hbad : mbadfs.lookup "clobTokenIds" = some (.str s))
    (hparse : env.json_loads s = some (.arr []) ∨ env.json_loads s = none)
    (hwf : ∀ m ∈ ms1 ++ ms2, WFmarket env m) :
    (main env).error = none ∧
    summaryOut (main env) = some (.arr (statsFor env (ms1 ++ ms2))) ∧
    (main env).writes = ⟨Artifact.eventJson, .obj efs, true⟩ ::
      (writesFor env (ms1 ++ ms2) ++
        [⟨Artifact.summaryJson, .arr (statsFor env (ms1 ++ ms2)), true⟩]) ∧
    (main env).queries = queriesFor env 0 (ms1 ++ ms2) := by
  have hnorm : normTokens env mbadfs = .arr [] := by
    unfold normTokens normalizeTokens
    rw [hbad]
    rcases hparse with hp | hp
    · simp [hp]
    · simp [hp]
  have hbadtok : hasTok env (Json.obj mbadfs) = false := by
    simp [hasTok, hnorm, Json.truthy]
  have hwfbad : WFmarket env (Json.obj mbadfs) := by
    refine ⟨mbadfs, rfl, fun hcon => ?_⟩
    rw [hnorm] at hcon
    simp [Json.truthy] at hcon
  have hwfall : ∀ m ∈ ms1 ++ Json.obj mbadfs :: ms2, WFmarket env m := by
    intro m hm
    rcases List.mem_append.mp hm with hm | hm
    · exact hwf m (List.mem_append.mpr (Or.inl hm))
    · rcases List.mem_cons.mp hm with hm | hm
      · subst hm
        exact hwfbad
      · exact hwf m (List.mem_append.mpr (Or.inr hm))
  have hmain := main_spec env ev efs (ms1 ++ Json.obj mbadfs :: ms2)
    hev htruthy hobj hmk hwfall
  rw [statsFor_skip env _ hbadtok ms1 ms2, writesFor_skip env _ hbadtok ms1 ms2,
      queriesFor_skip env _ hbadtok ms1 0 ms2] at hmain
  refine ⟨?_, ?_, ?_, ?_⟩
  · rw [hmain]
  · exact summaryOut_shape env (main env) (.obj efs) (ms1 ++ ms2)
      (statsFor env (ms1 ++ ms2)) (by rw [hmain])
  · rw [hmain]
  · rw [hmain]

/-- C6: the summary entries are exactly the token-bearing markets in
their original order in the event's `markets` array — no re-sorting. -/
theorem claim6_summary_order (env : Env) (ev : Json) (efs : List (String × Json))
    (ms : List Json)
    (hev : env.eventHttp slug = .ok (200, ev))
    (htruthy : ev.truthy = true)
    (hobj : selectEvent ev = .obj efs)
    (hmk : (efs.lookup "markets").getD (.arr []) = .arr ms)
    (hwf : ∀ m ∈ ms, WFmarket env m) :
    summaryOut (main env) = some (.arr ((ms.filter (hasTok env)).map (statOfM env))) := by
  have hmain := main_spec env ev efs ms hev htruthy hobj hmk hwf
  have hs := summaryOut_shape env (main env) (.obj efs) ms (statsFor env ms)
    (by rw [hmain])
  rw [hs, statsFor_eq env ms]

/-- C8 (counterexample): a run whose event resolves to a non-empty
response can still end without writing `summary.json` (a market with a
fetchable history but no `id` raises before the summary is flushed). -/
theorem claim8_counterexample :
    pyTruthyOpt ((get_event_data envNoId slug).1) = true ∧
    ((main envNoId).writes.filter (fun w => w.path.isSummary)) = [] :=
  ⟨rfl, rfl⟩

/-- C8 (amended): whenever the event resolves to a truthy response and
the run raises no uncaught exception, the writes are exactly
`event.json` first, then history files, then `summary.json` holding the
(possibly empty) stats array. -/
theorem claim8_amended (env : Env) (ev : Json)
    (hev : env.eventHttp slug = .ok (200, ev))
    (htruthy : ev.truthy = true)
    (hnoerr : (main env).error = none) :
    ∃ hw stats, (main env).writes =
        ⟨Artifact.eventJson, selectEvent ev, true⟩ ::
          (hw ++ [⟨Artifact.summaryJson, Json.arr stats, true⟩]) ∧
      ∀ w ∈ hw, w.path.isHistory = true := by
  have hme := main_truthy_eq env ev hev htruthy
  rw [hme] at hnoerr ⊢
  rcases afterEvent_shape env [Msg.fetchingEvent slug] (selectEvent ev) with h | h
  · exact absurd hnoerr h
  · exact h

theorem claim8_amended_witness :
    (main envZero).error = none ∧
    ∃ hw stats, (main envZero).writes =
        ⟨Artifact.eventJson, selectEvent eventZero, true⟩ ::
          (hw ++ [⟨Artifact.summaryJson, Json.arr stats, true⟩]) ∧
      ∀ w ∈ hw, w.path.isHistory = true :=
  ⟨rfl, claim8_amended envZero eventZero rfl rfl rfl⟩

/-- C9: a market with a non-empty token list and a successful history
fetch but no `id` attribute halts the run with an uncaught `KeyError`
after `event.json` was written, unlike remote-data anomalies (e.g. a 404
from the history service), which let the run finish normally. -/
theorem claim9_missing_id_halts :
    (main envNoId).error = some (RunError.keyError "id") ∧
    (main envNoId).writes = [⟨Artifact.eventJson, eventNoId, true⟩] ∧
    (main envHist404).error = none ∧
    summaryOut (main envHist404) = some (.arr []) :=
  ⟨rfl, rfl, rfl, rfl⟩

/-- `market1` is well-formed in any world using `histServe`. -/
theorem wfm1 (env : Env) (hh : env.histHttp = histServe) : WFmarket env market1 :=
  ⟨[("id", .str "m1"), ("question", .str "Will A win?"),
    ("clobTokenIds", .arr [.str "t1", .str "t2"]), ("volume", .num 200)], rfl,
   fun _ => ⟨⟨.str "m1", rfl⟩, ⟨[.str "t1", .str "t2"], rfl⟩,
     ⟨[("history", .arr [.num 1, .num 2])], [.num 1, .num 2],
      fun ts => by rw [hh]; rfl, rfl⟩⟩⟩

/-- `market2` is well-formed in any world using `histServe`. -/
theorem wfm2 (env : Env) (hh : env.histHttp = histServe) : WFmarket env market2 :=
  ⟨[("id", .str "m2"), ("question", .str "Will B win?"),
    ("clobTokenIds", .arr [.str "t3", .str "t4"]), ("volume", .num 500)], rfl,
   fun _ => ⟨⟨.str "m2", rfl⟩, ⟨[.str "t3", .str "t4"], rfl⟩,
     ⟨[("history", .arr [.num 3])], [.num 3],
      fun ts => by rw [hh]; rfl, rfl⟩⟩⟩

/-- `market3` is well-formed in any world using `histServe`. -/
theorem wfm3 (env : Env) (hh : env.histHttp = histServe) : WFmarket env market3 :=
  ⟨[("id", .str "m3"), ("question", .str "Will C win?"),
    ("clobTokenIds", .arr [.str "t5", .str "t6"]), ("volume", .num 100)], rfl,
   fun _ => ⟨⟨.str "m3", rfl⟩, ⟨[.str "t5", .str "t6"], rfl⟩,
     ⟨[("history", .arr [.num 3])], [.num 3],
      fun ts => by rw [hh]; rfl, rfl⟩⟩⟩

theorem claim1_summary_counts_witness :
    summaryOut (main envTwo) =
      some (.arr (([market1, market2].filter (hasTok envTwo)).map (statOfM envTwo))) ∧
    (([market1, market2].filter (hasTok envTwo)).map (statOfM envTwo)).length =
      ([market1, market2].filter (hasTok envTwo)).length ∧
    ∀ m ∈ [market1, market2].filter (hasTok envTwo),
      pyGetItem (statOfM envTwo m) "points" = .ok (.num (histPtsM envTwo m).length) :=
  claim1_summary_counts envTwo eventTwo eventTwoFields [market1, market2]
    rfl rfl rfl rfl
    (by
      intro m hm
      rcases List.mem_cons.mp hm with hm | hm
      · subst hm
        exact wfm1 envTwo rfl
      · rcases List.mem_cons.mp hm with hm | hm
        · subst hm
          exact wfm2 envTwo rfl
        · exact absurd hm (List.not_mem_nil m))
    (by
      have hfil : [market1, market2].filter (hasTok envTwo) = [market1, market2] := rfl
      rw [hfil]
      exact List.cons_ne_nil _ _)

theorem claim2_amended_witness :
    (main envThree).queries.map Prod.snd =
      (List.range (([market1, market2, market3].filter (hasTok envThree)).length)).map
        (fun k => envThree.clock k - 14 * 24 * 3600) :=
  claim2_amended envThree eventThree eventThreeFields [market1, market2, market3]
    rfl rfl rfl rfl
    (by
      intro m hm
      rcases List.mem_cons.mp hm with hm | hm
      · subst hm
        exact wfm1 envThree rfl
      · rcases List.mem_cons.mp hm with hm | hm
        · subst hm
          exact wfm2 envThree rfl
        · rcases List.mem_cons.mp hm with hm | hm
          · subst hm
            exact wfm3 envThree rfl
          · exact absurd hm (List.not_mem_nil m))

theorem claim5_bad_tokens_witness :
    (main envSkip).error = none ∧
    summaryOut (main envSkip) = some (.arr (statsFor envSkip ([market1] ++ [market2]))) ∧
    (main envSkip).writes = ⟨Artifact.eventJson, .obj eventSkipFields, true⟩ ::
      (writesFor envSkip ([market1] ++ [market2]) ++
        [⟨Artifact.summaryJson, .arr (statsFor envSkip ([market1] ++ [market2])), true⟩]) ∧
    (main envSkip).queries = queriesFor envSkip 0 ([market1] ++ [market2]) :=
  claim5_bad_tokens envSkip eventSkip eventSkipFields marketSkipFields "[]"
    [market1] [market2]
    rfl rfl rfl rfl rfl (Or.inl rfl)
    (by
      intro m hm
      rcases List.mem_append.mp hm with hm | hm
      · rcases List.mem_cons.mp hm with hm | hm
        · subst hm
          exact wfm1 envSkip rfl
        · exact absurd hm (List.not_mem_nil m)
      · rcases List.mem_cons.mp hm with hm | hm
        · subst hm
          exact wfm2 envSkip rfl
        · exact absurd hm (List.not_mem_nil m))

theorem claim6_summary_order_witness :
    summaryOut (main envThree) =
      some (.arr (([market1, market2, market3].filter (hasTok envThree)).map
        (statOfM envThree))) :=
  claim6_summary_order envThree eventThree eventThreeFields [market1, market2, market3]
    rfl rfl rfl rfl
    (by
      intro m hm
      rcases List.mem_cons.mp hm with hm | hm
      · subst hm
        exact wfm1 envThree rfl
      · rcases List.mem_cons.mp hm with hm | hm
        · subst hm
          exact wfm2 envThree rfl
        · rcases List.mem_cons.mp hm with hm | hm
          · subst hm
            exact wfm3 envThree rfl
          · exact absurd hm (List.not_mem_nil m))

end Fetch
